import Mathlib

/-!
Verification of the tag-based catalog consistency and query subsystem of the
taggart media cataloguer.

The Go source is shallowly embedded: pure string manipulation is translated to
functions on `List Char` / `String`, the SQLite catalog is modelled as lists of
rows, the filesystem as an association list from paths to file identities, and
fallible operations return `Except`/`Option`.  Injected boolean flags stand for
the failure of an individual database statement, mirroring the error branches
of the handlers.
-/

namespace Taggart

/-! ## Go string primitives -/

/-- Model of Go `unicode.IsSpace` restricted to the ASCII whitespace that
`strings.TrimSpace` strips (the source only ever trims form input). -/
def goIsSpace (c : Char) : Bool :=
  c = ' ' || c = '\t' || c = '\n' || c = '\x0b' || c = '\x0c' || c = '\r'

/-- Model of Go `strings.TrimSpace` on a character list. -/
def goTrim (l : List Char) : List Char :=
  ((l.dropWhile goIsSpace).reverse.dropWhile goIsSpace).reverse

/-- Character membership, Go `strings.Contains(s, <single char>)`. -/
def containsChar (c : Char) (l : List Char) : Bool :=
  l.any (fun d => d = c)

/-- Model of Go `strings.Split(s, sep)` for a one-character separator:
splits at every occurrence, keeping empty fields (`Split("", sep) = [""]`). -/
def splitChar (sep : Char) : List Char → List (List Char)
  | [] => [[]]
  | c :: rest =>
    if c = sep then [] :: splitChar sep rest
    else
      match splitChar sep rest with
      | [] => [[c]]
      | t :: ts => (c :: t) :: ts

/-- Model of Go `strings.ReplaceAll(s, <char a>, <char b>)` for one-character
pattern and replacement. -/
def goReplaceChar (a b : Char) (l : List Char) : List Char :=
  l.map (fun c => if c = a then b else c)

/-- Model of Go `strings.ReplaceAll(s, "..", "_")`: replaces leftmost
non-overlapping occurrences of two consecutive dots by an underscore. -/
def goReplaceDotDot : List Char → List Char
  | [] => []
  | [c] => [c]
  | a :: b :: rest =>
    if a = '.' ∧ b = '.' then '_' :: goReplaceDotDot rest
    else a :: goReplaceDotDot (b :: rest)

/-- Predicate: `hasDotDot l = true` iff `l` contains two consecutive `'.'` characters
(the substring `".."`). -/
def hasDotDot : List Char → Bool
  | [] => false
  | [_] => false
  | a :: b :: rest => (a = '.' && b = '.') || hasDotDot (b :: rest)

/-- From `main.go` (`sanitizeFilename`): replaces `/`, `\` and `..` by `_`;
an empty input yields the fallback name `"file"`.  The second emptiness check
of the source is kept even though the replacement pipeline cannot empty a
non-empty string. -/
def sanitizeFilename (filename : String) : String :=
  if filename = "" then "file"
  else if goReplaceDotDot (goReplaceChar '\\' '_' (goReplaceChar '/' '_' filename.data)) = []
    then "file"
    else String.mk (goReplaceDotDot (goReplaceChar '\\' '_' (goReplaceChar '/' '_' filename.data)))

/-- Model of Go `path/filepath.Join(dir, name)` for a cleaned directory and a
separator-free, dot-dot-free final component, where `Clean` is the identity:
plain concatenation with one separator. -/
def joinPath (dir name : String) : String :=
  dir ++ "/" ++ name

/-- Path components: split on `'/'`. -/
def splitSlash (p : String) : List (List Char) :=
  splitChar '/' p.data

/-! ### Lemmas on the string primitives -/

theorem goReplaceChar_not_contains (a b : Char) (hab : b ≠ a) (l : List Char) :
    containsChar a (goReplaceChar a b l) = false := by
  simp only [containsChar, goReplaceChar, List.any_eq_false, List.mem_map]
  rintro c ⟨d, _, rfl⟩
  split <;> simp_all

theorem goReplaceChar_mem (a b : Char) {c : Char} {l : List Char}
    (h : c ∈ goReplaceChar a b l) : c = b ∨ c ∈ l := by
  simp only [goReplaceChar, List.mem_map] at h
  obtain ⟨d, hd, rfl⟩ := h
  split <;> simp_all

theorem goReplaceChar_eq_nil (a b : Char) {l : List Char}
    (h : goReplaceChar a b l = []) : l = [] := by
  cases l with
  | nil => rfl
  | cons c r => simp [goReplaceChar] at h

theorem goReplaceDotDot_eq_nil : ∀ {l : List Char}, goReplaceDotDot l = [] → l = []
  | [], _ => rfl
  | [c], h => by simp [goReplaceDotDot] at h
  | a :: b :: rest, h => by
    simp only [goReplaceDotDot] at h
    split at h <;> simp_all

theorem goReplaceDotDot_mem : ∀ {l : List Char} {c : Char},
    c ∈ goReplaceDotDot l → c = '_' ∨ c ∈ l
  | [], c, h => by simp [goReplaceDotDot] at h
  | [d], c, h => by
    simp only [goReplaceDotDot, List.mem_singleton] at h
    exact Or.inr (by simp [h])
  | a :: b :: rest, c, h => by
    simp only [goReplaceDotDot] at h
    split at h
    · rcases List.mem_cons.mp h with h1 | h2
      · exact Or.inl h1
      · rcases goReplaceDotDot_mem h2 with h3 | h4
        · exact Or.inl h3
        · exact Or.inr (by simp [h4])
    · rcases List.mem_cons.mp h with h1 | h2
      · exact Or.inr (by simp [h1])
      · rcases goReplaceDotDot_mem h2 with h3 | h4
        · exact Or.inl h3
        · exact Or.inr (by simp [List.mem_cons.mp h4])

theorem goReplaceDotDot_head : ∀ (b : Char) (rest : List Char),
    ∃ h t, goReplaceDotDot (b :: rest) = h :: t ∧ (h = b ∨ h = '_')
  | b, [] => ⟨b, [], by simp [goReplaceDotDot]⟩
  | b, r :: rs => by
    by_cases hbr : b = '.' ∧ r = '.'
    · exact ⟨'_', goReplaceDotDot rs, by simp [goReplaceDotDot, hbr], Or.inr rfl⟩
    · exact ⟨b, goReplaceDotDot (r :: rs), by simp [goReplaceDotDot, hbr], Or.inl rfl⟩

theorem hasDotDot_cons {c : Char} {l : List Char} (hc : c ≠ '.')
    (hl : hasDotDot l = false) : hasDotDot (c :: l) = false := by
  cases l with
  | nil => simp [hasDotDot]
  | cons d r => simp_all [hasDotDot]

theorem goReplaceDotDot_no_dotdot : ∀ {l : List Char},
    hasDotDot (goReplaceDotDot l) = false
  | [] => by simp [goReplaceDotDot, hasDotDot]
  | [c] => by simp [goReplaceDotDot, hasDotDot]
  | a :: b :: rest => by
    simp only [goReplaceDotDot]
    split
    · exact hasDotDot_cons (by decide) (goReplaceDotDot_no_dotdot (l := rest))
    · rename_i hab
      obtain ⟨h, t, heq, hh⟩ := goReplaceDotDot_head b rest
      rw [heq]
      have ht : hasDotDot (h :: t) = false := heq ▸ goReplaceDotDot_no_dotdot (l := b :: rest)
      have hnot : (a = '.' && h = '.') = false := by
        rcases hh with rfl | rfl
        · by_cases ha : a = '.'
          · subst ha
            by_cases hb : h = '.'
            · exact absurd ⟨rfl, hb⟩ hab
            · simp [hb]
          · simp [ha]
        · simp
      simp [hasDotDot, hnot, ht]

theorem sanitizeFilename_ne_empty (s : String) : sanitizeFilename s ≠ "" := by
  unfold sanitizeFilename
  split
  · decide
  · split
    · decide
    · rename_i hne
      intro hcon
      exact hne (by simpa [String.ext_iff] using hcon)

theorem sanitizeFilename_no_slash (s : String) :
    containsChar '/' (sanitizeFilename s).data = false := by
  unfold sanitizeFilename
  split
  · decide
  · split
    · decide
    · simp only [containsChar, List.any_eq_false, decide_eq_true_eq]
      intro c hc hcs
      subst hcs
      rcases goReplaceDotDot_mem hc with h | h
      · exact absurd h (by decide)
      · rcases goReplaceChar_mem '\\' '_' h with h2 | h2
        · exact absurd h2 (by decide)
        · have := goReplaceChar_not_contains '/' '_' (by decide) s.data
          simp only [containsChar, List.any_eq_false, decide_eq_true_eq] at this
          exact this _ h2 rfl

theorem sanitizeFilename_no_backslash (s : String) :
    containsChar '\\' (sanitizeFilename s).data = false := by
  unfold sanitizeFilename
  split
  · decide
  · split
    · decide
    · simp only [containsChar, List.any_eq_false, decide_eq_true_eq]
      intro c hc hcs
      subst hcs
      rcases goReplaceDotDot_mem hc with h | h
      · exact absurd h (by decide)
      · have := goReplaceChar_not_contains '\\' '_' (by decide) (goReplaceChar '/' '_' s.data)
        simp only [containsChar, List.any_eq_false, decide_eq_true_eq] at this
        exact this _ h rfl

theorem sanitizeFilename_no_dotdot (s : String) :
    hasDotDot (sanitizeFilename s).data = false := by
  unfold sanitizeFilename
  split
  · decide
  · split
    · decide
    · exact goReplaceDotDot_no_dotdot

theorem splitChar_ne_nil (sep : Char) : ∀ (l : List Char), splitChar sep l ≠ []
  | [] => by simp [splitChar]
  | c :: rest => by
    simp only [splitChar]
    split
    · simp
    · split
      · simp
      · simp

theorem splitChar_append_sep (sep : Char) :
    ∀ (l r : List Char), splitChar sep (l ++ sep :: r) = splitChar sep l ++ splitChar sep r
  | [], r => by simp [splitChar]
  | c :: l, r => by
    simp only [List.cons_append, splitChar]
    by_cases hc : c = sep
    · simp [hc, splitChar_append_sep sep l r]
    · rw [if_neg hc, if_neg hc, List.append_eq, splitChar_append_sep sep l r]
      cases hsl : splitChar sep l with
      | nil => exact absurd hsl (splitChar_ne_nil sep l)
      | cons t ts => simp [hsl]

theorem splitChar_no_sep (sep : Char) :
    ∀ {l : List Char}, containsChar sep l = false → splitChar sep l = [l]
  | [], _ => by simp [splitChar]
  | c :: rest, h => by
    simp only [containsChar, List.any_cons, Bool.or_eq_false_iff, decide_eq_false_iff_not] at h
    simp only [splitChar, if_neg (fun hcs => h.1 hcs)]
    rw [splitChar_no_sep sep (l := rest) (by simp [containsChar, h.2])]

/-- A separator-free final component lands directly under the directory:
joining and re-splitting appends exactly one component. -/
theorem splitSlash_joinPath (dir name : String)
    (h : containsChar '/' name.data = false) :
    splitSlash (joinPath dir name) = splitSlash dir ++ [name.data] := by
  have hdata : (joinPath dir name).data = dir.data ++ '/' :: name.data := by
    simp [joinPath, String.data_append]
  simp only [splitSlash, hdata, splitChar_append_sep, splitChar_no_sep '/' h]

/-! ## Bulk query language: file-ID range expressions (`parseFileIDRange`) -/

/-- Numeric value of a decimal digit character. -/
def digitVal (c : Char) : Nat := c.toNat - '0'.toNat

/-- Value of a digit string, most significant first. -/
def digitsToNat (l : List Char) : Nat := l.foldl (fun a c => a * 10 + digitVal c) 0

/-- Model of Go `strconv.Atoi`: optional sign followed by at least one digit.
Overflow is not modelled (ids are small). -/
def goAtoi (l : List Char) : Option Int :=
  match l with
  | [] => none
  | c :: rest =>
    if c = '+' then
      if rest ≠ [] ∧ rest.all Char.isDigit then some (digitsToNat rest : Int) else none
    else if c = '-' then
      if rest ≠ [] ∧ rest.all Char.isDigit then some (-(digitsToNat rest : Int)) else none
    else if (c :: rest).all Char.isDigit then some (digitsToNat (c :: rest) : Int) else none

/-- The list `[start, start+1, ..., fin]` for `start ≤ fin`: the loop
`for i := start; i <= fin; i++`. -/
def intRangeList (start fin : Int) : List Int :=
  (List.range (fin - start + 1).toNat).map (fun i => start + (i : Int))

def errInvalidRangeFormat (part : List Char) : String :=
  "invalid range format: " ++ String.mk part

def errInvalidStart (part : List Char) : String :=
  "invalid start ID in range " ++ String.mk part ++ ": invalid syntax"

def errInvalidEnd (part : List Char) : String :=
  "invalid end ID in range " ++ String.mk part ++ ": invalid syntax"

def errReversedRange (part : List Char) : String :=
  "invalid range " ++ String.mk part ++ ": start must be <= end"

def errInvalidID (part : List Char) : String :=
  "invalid file ID: " ++ String.mk part

/-- One (already trimmed, non-empty) token of a range expression, from the loop
body of `parseFileIDRange` in `main.go`: either a `start-end` range (the token
contains `'-'`) or a single integer. -/
def parseToken (part : List Char) : Except String (List Int) :=
  if containsChar '-' part then
    match splitChar '-' part with
    | [p0, p1] =>
      match goAtoi (goTrim p0) with
      | none => .error (errInvalidStart part)
      | some s =>
        match goAtoi (goTrim p1) with
        | none => .error (errInvalidEnd part)
        | some e =>
          if s > e then .error (errReversedRange part) else .ok (intRangeList s e)
    | _ => .error (errInvalidRangeFormat part)
  else
    match goAtoi part with
    | none => .error (errInvalidID part)
    | some id => .ok [id]

/-- The comma-split loop of `parseFileIDRange`: trims each part, skips empty
parts, stops at the first malformed token, concatenates expansions. -/
def parseParts : List (List Char) → Except String (List Int)
  | [] => .ok []
  | p :: ps =>
    if goTrim p = [] then parseParts ps
    else
      match parseToken (goTrim p) with
      | .error e => .error e
      | .ok ids =>
        match parseParts ps with
        | .error e => .error e
        | .ok rest => .ok (ids ++ rest)

/-- The duplicate-removal pass at the end of `parseFileIDRange` (`uniqueIDs`
map plus append-if-unseen loop): keeps the first occurrence of each id. -/
def dedupeKeepFirst (seen : List Int) : List Int → List Int
  | [] => []
  | x :: xs =>
    if x ∈ seen then dedupeKeepFirst seen xs
    else x :: dedupeKeepFirst (x :: seen) xs

/-- From `main.go` (`parseFileIDRange`): split on commas, expand tokens,
deduplicate on success. -/
def parseFileIDRange (rangeStr : String) : Except String (List Int) :=
  match parseParts (splitChar ',' rangeStr.data) with
  | .error e => .error e
  | .ok ids => .ok (dedupeKeepFirst [] ids)

theorem parseParts_cons (p : List Char) (ps : List (List Char)) :
    parseParts (p :: ps) =
      if goTrim p = [] then parseParts ps
      else
        match parseToken (goTrim p) with
        | .error e => .error e
        | .ok ids =>
          match parseParts ps with
          | .error e => .error e
          | .ok rest => .ok (ids ++ rest) := rfl

/-! ### Well-formedness per the specification's grammar -/

/-- A bare non-negative integer token: non-empty, digits only. -/
def isNatToken (l : List Char) : Bool :=
  !l.isEmpty && l.all Char.isDigit

/-- A `start-end` token with `start ≤ end` (parts trimmed as the code does). -/
def isRangeToken (l : List Char) : Bool :=
  match splitChar '-' l with
  | [a, b] =>
    isNatToken (goTrim a) && isNatToken (goTrim b) &&
      decide ((digitsToNat (goTrim a) : Int) ≤ (digitsToNat (goTrim b) : Int))
  | _ => false

def goodToken (l : List Char) : Bool := isNatToken l || isRangeToken l

/-- A well-formed range string per the specification: every non-empty trimmed
comma-separated token is a single non-negative integer or a `start-end` range
with `start ≤ end`. -/
def wellFormedRangeStr (s : String) : Bool :=
  (splitChar ',' s.data).all (fun p => (goTrim p).isEmpty || goodToken (goTrim p))

/-- The id set denoted by one good token. -/
def tokenIDs (l : List Char) : List Int :=
  if isNatToken l then [(digitsToNat l : Int)]
  else
    match splitChar '-' l with
    | [a, b] => intRangeList (digitsToNat (goTrim a) : Int) (digitsToNat (goTrim b) : Int)
    | _ => []

/-! ### Lemmas on range parsing -/

theorem goAtoi_digits {l : List Char} (hne : l ≠ [])
    (hd : l.all Char.isDigit = true) : goAtoi l = some (digitsToNat l : Int) := by
  cases l with
  | nil => exact absurd rfl hne
  | cons c rest =>
    simp only [List.all_cons, Bool.and_eq_true] at hd
    have hplus : c ≠ '+' := fun h => by rw [h] at hd; exact absurd hd.1 (by decide)
    have hminus : c ≠ '-' := fun h => by rw [h] at hd; exact absurd hd.1 (by decide)
    simp [goAtoi, hplus, hminus, hd.1, hd.2]

theorem all_digits_no_dash {l : List Char} (hd : l.all Char.isDigit = true) :
    containsChar '-' l = false := by
  simp only [containsChar, List.any_eq_false, decide_eq_true_eq]
  intro c hc hcd
  subst hcd
  simp only [List.all_eq_true] at hd
  exact absurd (hd _ hc) (by decide)

theorem isNatToken_parts {l : List Char} (h : isNatToken l = true) :
    l ≠ [] ∧ l.all Char.isDigit = true := by
  simp only [isNatToken, Bool.and_eq_true, Bool.not_eq_true', List.isEmpty_eq_false] at h
  simpa using h

theorem parseToken_good {t : List Char} (h : goodToken t = true) :
    parseToken t = .ok (tokenIDs t) := by
  rcases Bool.or_eq_true_iff.mp (by simpa [goodToken] using h) with hn | hr
  · obtain ⟨hne, hd⟩ := isNatToken_parts hn
    simp [parseToken, tokenIDs, hn, all_digits_no_dash hd, goAtoi_digits hne hd]
  · unfold isRangeToken at hr
    cases hsp : splitChar '-' t with
    | nil => rw [hsp] at hr; simp at hr
    | cons a ts =>
      cases ts with
      | nil =>
        rw [hsp] at hr; simp at hr
      | cons b ts2 =>
        cases ts2 with
        | cons x xs => rw [hsp] at hr; simp at hr
        | nil =>
          rw [hsp] at hr
          simp only [Bool.and_eq_true, decide_eq_true_eq] at hr
          obtain ⟨⟨ha, hb⟩, hle⟩ := hr
          obtain ⟨hane, had⟩ := isNatToken_parts ha
          obtain ⟨hbne, hbd⟩ := isNatToken_parts hb
          have hdash : containsChar '-' t = true := by
            by_contra hcon
            rw [splitChar_no_sep '-' (Bool.eq_false_iff.mpr hcon)] at hsp
            simp at hsp
          have hnat : isNatToken t = false := by
            simp only [isNatToken, Bool.and_eq_false_iff]
            right
            simp only [List.all_eq_false]
            simp only [containsChar, List.any_eq_true, decide_eq_true_eq] at hdash
            obtain ⟨c, hc, hcd⟩ := hdash
            exact ⟨c, hc, by rw [hcd]; decide⟩
          simp [parseToken, tokenIDs, hdash, hsp, hnat,
            goAtoi_digits hane had, goAtoi_digits hbne hbd, not_lt.mpr hle]

theorem dedupe_mem (x : Int) :
    ∀ (l seen : List Int), x ∈ dedupeKeepFirst seen l ↔ x ∈ l ∧ x ∉ seen
  | [], seen => by simp [dedupeKeepFirst]
  | y :: ys, seen => by
    simp only [dedupeKeepFirst]
    split
    · rename_i hy
      rw [dedupe_mem x ys seen]
      constructor
      · rintro ⟨h1, h2⟩
        exact ⟨List.mem_cons_of_mem _ h1, h2⟩
      · rintro ⟨h1, h2⟩
        rcases List.mem_cons.mp h1 with rfl | h3
        · exact absurd hy h2
        · exact ⟨h3, h2⟩
    · rename_i hy
      simp only [List.mem_cons, dedupe_mem x ys (y :: seen)]
      constructor
      · rintro (rfl | ⟨h1, h2⟩)
        · exact ⟨Or.inl rfl, hy⟩
        · exact ⟨Or.inr h1, fun hc => h2 (Or.inr hc)⟩
      · rintro ⟨rfl | h1, h2⟩
        · exact Or.inl rfl
        · by_cases hxy : x = y
          · exact Or.inl hxy
          · exact Or.inr ⟨h1, fun hc => hc.elim hxy h2⟩

theorem dedupe_nodup : ∀ (l seen : List Int), (dedupeKeepFirst seen l).Nodup
  | [], seen => by simp [dedupeKeepFirst]
  | y :: ys, seen => by
    simp only [dedupeKeepFirst]
    split
    · exact dedupe_nodup ys seen
    · refine List.nodup_cons.mpr ⟨?_, dedupe_nodup ys (y :: seen)⟩
      intro hmem
      exact ((dedupe_mem y ys (y :: seen)).mp hmem).2 (List.mem_cons_self y seen)

theorem dedupe_toFinset (l : List Int) :
    (dedupeKeepFirst [] l).toFinset = l.toFinset := by
  ext x
  simp [List.mem_toFinset, dedupe_mem]

theorem parseParts_wellFormed :
    ∀ (parts : List (List Char)),
      (∀ p ∈ parts, (goTrim p).isEmpty || goodToken (goTrim p)) →
      parseParts parts =
        .ok (((parts.map goTrim).filter (fun p => !p.isEmpty)).map tokenIDs).flatten
  | [], _ => by simp [parseParts]
  | p :: ps, h => by
    have hp := h p (List.mem_cons_self p ps)
    have hps := parseParts_wellFormed ps (fun q hq => h q (List.mem_cons_of_mem p hq))
    by_cases he : goTrim p = []
    · simp [parseParts, he, hps, List.filter_cons]
    · have hgood : goodToken (goTrim p) = true := by
        rcases Bool.or_eq_true_iff.mp hp with h1 | h1
        · exact absurd (List.isEmpty_eq_true.mp h1) he
        · exact h1
      have hne : (goTrim p).isEmpty = false := by
        simp [List.isEmpty_eq_false, he]
      simp [parseParts, he, parseToken_good hgood, hps, List.filter_cons, hne]

theorem parseToken_error_names {t : List Char} {e : String}
    (h : parseToken t = .error e) : ∃ pre suf, e.data = pre ++ t ++ suf := by
  unfold parseToken at h
  split at h
  · split at h
    · split at h
      · simp only [Except.error.injEq] at h
        exact ⟨"invalid start ID in range ".data, ": invalid syntax".data, by
          simp [← h, errInvalidStart, String.data_append]⟩
      · split at h
        · simp only [Except.error.injEq] at h
          exact ⟨"invalid end ID in range ".data, ": invalid syntax".data, by
            simp [← h, errInvalidEnd, String.data_append]⟩
        · split at h
          · simp only [Except.error.injEq] at h
            exact ⟨"invalid range ".data, ": start must be <= end".data, by
              simp [← h, errReversedRange, String.data_append]⟩
          · exact absurd h (by simp)
    · simp only [Except.error.injEq] at h
      exact ⟨"invalid range format: ".data, [], by
        simp [← h, errInvalidRangeFormat, String.data_append]⟩
  · split at h
    · simp only [Except.error.injEq] at h
      exact ⟨"invalid file ID: ".data, [], by
        simp [← h, errInvalidID, String.data_append]⟩
    · exact absurd h (by simp)

theorem parseParts_error :
    ∀ (parts : List (List Char)),
      (∃ p ∈ parts, goTrim p ≠ [] ∧ ∃ e, parseToken (goTrim p) = .error e) →
      ∃ msg, parseParts parts = .error msg ∧
        ∃ p ∈ parts, goTrim p ≠ [] ∧ parseToken (goTrim p) = .error msg
  | [], h => by simp at h
  | p :: ps, h => by
    by_cases he : goTrim p = []
    · have hps : ∃ q ∈ ps, goTrim q ≠ [] ∧ ∃ e, parseToken (goTrim q) = .error e := by
        obtain ⟨q, hq, hqe, e, hqerr⟩ := h
        rcases List.mem_cons.mp hq with rfl | hq2
        · exact absurd he hqe
        · exact ⟨q, hq2, hqe, e, hqerr⟩
      obtain ⟨msg, hmsg, q, hq, hqe, hqerr⟩ := parseParts_error ps hps
      exact ⟨msg, by simp [parseParts, he, hmsg], q, List.mem_cons_of_mem p hq, hqe, hqerr⟩
    · cases htok : parseToken (goTrim p) with
      | error e =>
        exact ⟨e, by simp [parseParts, he, htok], p, List.mem_cons_self p ps, he, htok⟩
      | ok ids =>
        have hps : ∃ q ∈ ps, goTrim q ≠ [] ∧ ∃ e, parseToken (goTrim q) = .error e := by
          obtain ⟨q, hq, hqe, e, hqerr⟩ := h
          rcases List.mem_cons.mp hq with rfl | hq2
          · rw [htok] at hqerr; exact absurd hqerr (by simp)
          · exact ⟨q, hq2, hqe, e, hqerr⟩
        obtain ⟨msg, hmsg, q, hq, hqe, hqerr⟩ := parseParts_error ps hps
        exact ⟨msg, by simp [parseParts, he, htok, hmsg], q,
          List.mem_cons_of_mem p hq, hqe, hqerr⟩

/-- Test `startsWith pat l` : `pat` is an initial segment of `l`. -/
def startsWith : List Char → List Char → Bool
  | [], _ => true
  | _ :: _, [] => false
  | a :: as, b :: bs => a = b && startsWith as bs

/-- Test `containsSub pat l` : `pat` occurs as a contiguous substring of `l`. -/
def containsSub (pat : List Char) : List Char → Bool
  | [] => pat.isEmpty
  | c :: rest => startsWith pat (c :: rest) || containsSub pat rest

theorem startsWith_append (pat suf : List Char) : startsWith pat (pat ++ suf) = true := by
  induction pat with
  | nil => simp [startsWith]
  | cons a as ih => simp [startsWith, ih]

theorem containsSub_append (pat pre suf : List Char) :
    containsSub pat (pre ++ pat ++ suf) = true := by
  induction pre with
  | nil =>
    cases hp : pat ++ suf with
    | nil =>
      obtain ⟨hpat, hsuf⟩ := List.append_eq_nil.mp hp
      subst hpat; subst hsuf
      rfl
    | cons c rest =>
      rw [List.nil_append, hp]
      simp only [containsSub]
      rw [← hp, startsWith_append, Bool.true_or]
  | cons c cs ih =>
    have hshape : (c :: cs) ++ pat ++ suf = c :: (cs ++ pat ++ suf) := by simp
    rw [hshape]
    simp only [containsSub]
    rw [ih, Bool.or_true]

/-- The error message of a malformed token (`""` when the token is fine). -/
def tokenError (p : List Char) : String :=
  match parseToken p with
  | .error e => e
  | .ok _ => ""

/-- The first comma-separated token of `s` that is non-empty after trimming and
malformed, if any. -/
def firstBadToken (s : String) : Option (List Char) :=
  ((splitChar ',' s.data).map goTrim).find?
    (fun q => !q.isEmpty && !(parseToken q).isOk)

theorem parseToken_error_contains {t : List Char} {e : String}
    (h : parseToken t = .error e) : containsSub t e.data = true := by
  obtain ⟨pre, suf, hps⟩ := parseToken_error_names h
  rw [hps]
  exact containsSub_append t pre suf

theorem parseParts_first_error :
    ∀ (parts : List (List Char)) (p : List Char),
      ((parts.map goTrim).find? (fun q => !q.isEmpty && !(parseToken q).isOk)) = some p →
      parseParts parts = .error (tokenError p)
  | [], p, h => by simp at h
  | t :: ts, p, h => by
    simp only [List.map_cons, List.find?_cons] at h
    split at h
    · rename_i hpred
      simp only [Bool.and_eq_true, Bool.not_eq_true', List.isEmpty_eq_false,
        Option.some.injEq] at hpred
      obtain ⟨htne, hofail⟩ := hpred
      have hp : goTrim t = p := by injection h
      subst hp
      cases htok : parseToken (goTrim t) with
      | error e =>
        rw [parseParts_cons, if_neg htne, htok]
        simp [tokenError, htok]
      | ok ids =>
        rw [htok] at hofail
        simp [Except.isOk, Except.toBool] at hofail
    · rename_i hpred
      have ih := parseParts_first_error ts p h
      by_cases he : goTrim t = []
      · rw [parseParts_cons, if_pos he]
        exact ih
      · have hok : (parseToken (goTrim t)).isOk = true := by
          by_contra hnok
          have h1 : (parseToken (goTrim t)).isOk = false := Bool.eq_false_iff.mpr hnok
          have h2 : (goTrim t).isEmpty = false := List.isEmpty_eq_false.mpr he
          rw [h1, h2] at hpred
          simp at hpred
        cases htok : parseToken (goTrim t) with
        | error e => rw [htok] at hok; simp [Except.isOk, Except.toBool] at hok
        | ok ids =>
          rw [parseParts_cons, if_neg he, htok, ih]

/-- The non-empty trimmed tokens of a range string, in order. -/
def rangeTokens (s : String) : List (List Char) :=
  ((splitChar ',' s.data).map goTrim).filter (fun p => !p.isEmpty)

/-- C6: on a well-formed range string, `parseFileIDRange` succeeds, the result
has no duplicate ids, and its id set is the union of the inclusive expansions
of all tokens. -/
theorem parseFileIDRange_wellFormed_spec (s : String)
    (h : wellFormedRangeStr s = true) :
    parseFileIDRange s = .ok (dedupeKeepFirst [] (((rangeTokens s).map tokenIDs).flatten)) ∧
    (dedupeKeepFirst [] (((rangeTokens s).map tokenIDs).flatten)).Nodup ∧
    (dedupeKeepFirst [] (((rangeTokens s).map tokenIDs).flatten)).toFinset =
      (((rangeTokens s).map tokenIDs).flatten).toFinset := by
  have hparts := parseParts_wellFormed (splitChar ',' s.data)
    (fun p hp => (List.all_eq_true.mp h) p hp)
  refine ⟨?_, dedupe_nodup _ _, dedupe_toFinset _⟩
  simp [parseFileIDRange, hparts, rangeTokens, List.filter_map]

/-- Witness for C6 at the specification's example `"3,1-2,2"`; the parse yields
`[3, 1, 2]`, whose id set is `{1, 2, 3}` with each id once. -/
theorem parseFileIDRange_wellFormed_spec_witness :
    (parseFileIDRange "3,1-2,2" =
        .ok (dedupeKeepFirst [] (((rangeTokens "3,1-2,2").map tokenIDs).flatten)) ∧
      (dedupeKeepFirst [] (((rangeTokens "3,1-2,2").map tokenIDs).flatten)).Nodup ∧
      (dedupeKeepFirst [] (((rangeTokens "3,1-2,2").map tokenIDs).flatten)).toFinset =
        (((rangeTokens "3,1-2,2").map tokenIDs).flatten).toFinset) ∧
    parseFileIDRange "3,1-2,2" = .ok [3, 1, 2] ∧
    ([3, 1, 2] : List Int).toFinset = ({1, 2, 3} : Finset Int) :=
  ⟨parseFileIDRange_wellFormed_spec "3,1-2,2" (by decide), by rfl, by decide⟩

/-- C7: a range string whose first non-empty malformed token is `p` fails as a
whole (no partial id list), with an error message that contains `p`. -/
theorem parseFileIDRange_malformed_spec (s : String) (p : List Char)
    (h : firstBadToken s = some p) :
    parseFileIDRange s = .error (tokenError p) ∧
    containsSub p (tokenError p).data = true := by
  have hpp := parseParts_first_error (splitChar ',' s.data) p h
  refine ⟨by simp [parseFileIDRange, hpp], ?_⟩
  have hfind := List.find?_some h
  simp only [Bool.and_eq_true, Bool.not_eq_true'] at hfind
  cases htok : parseToken p with
  | error e =>
    have : tokenError p = e := by simp [tokenError, htok]
    rw [this]
    exact parseToken_error_contains htok
  | ok ids =>
    rw [htok] at hfind
    simp [Except.isOk, Except.toBool] at hfind

/-- Witness for C7 at the specification's examples: `"5-2"` (reversed range)
and `"a-3"` (non-numeric) both fail with an error naming the token. -/
theorem parseFileIDRange_malformed_spec_witness :
    (parseFileIDRange "5-2" = .error (tokenError "5-2".data) ∧
      containsSub "5-2".data (tokenError "5-2".data).data = true) ∧
    parseFileIDRange "a-3" = .error "invalid start ID in range a-3: invalid syntax" ∧
    parseFileIDRange "5-2" = .error "invalid range 5-2: start must be <= end" :=
  ⟨parseFileIDRange_malformed_spec "5-2" "5-2".data (by decide), by rfl, by rfl⟩

/-! ## Catalog model

The SQLite schema of `main.go` (`files`, `categories`, `tags`, `file_tags`)
modelled as lists of rows.  String comparison in the model is plain equality,
matching SQLite's default BINARY (case-sensitive) collation: no column of the
schema carries `COLLATE NOCASE`. -/

structure FileRow where
  id : Int
  filename : String
  path : String
  description : String
deriving DecidableEq, Repr

structure CategoryRow where
  id : Int
  name : String
deriving DecidableEq, Repr

structure TagRow where
  id : Int
  categoryId : Int
  value : String
deriving DecidableEq, Repr

structure FileTagRow where
  fileId : Int
  tagId : Int
deriving DecidableEq, Repr

structure Catalog where
  files : List FileRow
  categories : List CategoryRow
  tags : List TagRow
  fileTags : List FileTagRow
deriving DecidableEq, Repr

/-- The SQL clause
`EXISTS (SELECT 1 FROM file_tags ft JOIN tags t ON ft.tag_id = t.id
JOIN categories c ON c.id = t.category_id
WHERE ft.file_id = f.id AND c.name = ? AND t.value IN (vals))`. -/
def existsTagIn (catalog : Catalog) (fid : Int) (cname : String)
    (vals : List String) : Bool :=
  catalog.fileTags.any fun ft =>
    ft.fileId = fid && catalog.tags.any fun t =>
      t.id = ft.tagId && catalog.categories.any fun c =>
        c.id = t.categoryId && c.name = cname && vals.any (fun v => v = t.value)

/-- The SQL clause
`NOT EXISTS (SELECT 1 FROM file_tags ft JOIN tags t ON ft.tag_id = t.id
JOIN categories c ON c.id = t.category_id
WHERE ft.file_id = f.id AND c.name = ?)`. -/
def noTagInCategory (catalog : Catalog) (fid : Int) (cname : String) : Bool :=
  !(catalog.fileTags.any fun ft =>
    ft.fileId = fid && catalog.tags.any fun t =>
      t.id = ft.tagId && catalog.categories.any fun c =>
        c.id = t.categoryId && c.name = cname)

/-- Semantic reading of `existsTagIn`: the file carries a tag of the category
whose value is in the given set. -/
def HasTagValueIn (catalog : Catalog) (fid : Int) (cname : String)
    (vals : List String) : Prop :=
  ∃ ft ∈ catalog.fileTags, ft.fileId = fid ∧
    ∃ t ∈ catalog.tags, t.id = ft.tagId ∧
      (∃ c ∈ catalog.categories, c.id = t.categoryId ∧ c.name = cname) ∧
      t.value ∈ vals

/-- Semantic reading of the join without a value condition: the file carries
some tag of the category. -/
def HasTagInCategory (catalog : Catalog) (fid : Int) (cname : String) : Prop :=
  ∃ ft ∈ catalog.fileTags, ft.fileId = fid ∧
    ∃ t ∈ catalog.tags, t.id = ft.tagId ∧
      ∃ c ∈ catalog.categories, c.id = t.categoryId ∧ c.name = cname

theorem existsTagIn_iff (catalog : Catalog) (fid : Int) (cname : String)
    (vals : List String) :
    existsTagIn catalog fid cname vals = true ↔
      HasTagValueIn catalog fid cname vals := by
  simp only [existsTagIn, HasTagValueIn, List.any_eq_true, Bool.and_eq_true,
    decide_eq_true_eq, exists_eq_right]
  tauto


theorem noTagInCategory_iff (catalog : Catalog) (fid : Int) (cname : String) :
    noTagInCategory catalog fid cname = true ↔
      ¬ HasTagInCategory catalog fid cname := by
  simp only [noTagInCategory, HasTagInCategory, Bool.not_eq_true',
    List.any_eq_false, Bool.and_eq_true, decide_eq_true_eq, List.any_eq_true,
    exists_eq_right]
  constructor
  · intro h
    rintro ⟨ft, hft, hfid, t, ht, htid, c, hc, hcid, hcname⟩
    exact (h ft hft) ⟨hfid, t, ht, htid, c, hc, hcid, hcname⟩
  · intro h ft hft
    rintro ⟨hfid, t, ht, htid, c, hc, hcid, hcname⟩
    exact h ⟨ft, hft, hfid, t, ht, htid, c, hc, hcid, hcname⟩

/-! ## Filter/alias resolver -/

/-- Alias configuration entry (`TagAliasGroup` in the source). -/
structure TagAliasGroup where
  category : String
  aliases : List String
deriving DecidableEq, Repr

/-- Model of Go `strings.EqualFold` for ASCII values: equality after folding
case character by character. -/
def eqFold (a b : String) : Bool :=
  a.data.map Char.toLower = b.data.map Char.toLower

/-- The loop of `expandTagWithAliases`: the first configured group of this
category containing a member that case-insensitively equals `value`, if any. -/
def findAliasGroup (config : List TagAliasGroup) (category value : String) :
    Option TagAliasGroup :=
  config.find? fun g =>
    g.category = category && g.aliases.any (fun a => eqFold a value)

/-- From the source (`expandTagWithAliases`): start from `[value]`; on the
first matching group append its members that do not case-insensitively equal
`value`, then stop; otherwise return the singleton. -/
def expandTagWithAliases (config : List TagAliasGroup) (category value : String) :
    List String :=
  match findAliasGroup config category value with
  | some g => value :: g.aliases.filter (fun a => !(eqFold a value))
  | none => [value]

/-- A requested `(category, value)` pair of the filter path. -/
structure FilterPair where
  category : String
  value : String
deriving DecidableEq, Repr

/-- One compiled WHERE clause of `tagFilterHandler`: `unassigned` compiles to
the NOT-EXISTS condition (no alias expansion), anything else to the EXISTS
condition over the alias-expanded value set. -/
def filterClause (catalog : Catalog) (config : List TagAliasGroup)
    (f : FilterPair) (fid : Int) : Bool :=
  if f.value = "unassigned" then noTagInCategory catalog fid f.category
  else existsTagIn catalog fid f.category
    (expandTagWithAliases config f.category f.value)

/-- The id set selected by `tagFilterHandler`'s compiled query (all clauses
ANDed); pagination (`LIMIT`/`OFFSET`) is presentation glue and not modelled. -/
def tagFilterIDs (catalog : Catalog) (config : List TagAliasGroup)
    (filters : List FilterPair) : List Int :=
  (catalog.files.filter
    (fun fr => filters.all (fun f => filterClause catalog config f fr.id))).map
    (fun fr => fr.id)

/-! ### Concrete data for the alias-expansion claims -/

/-- The specification's example alias configuration. -/
def colourAliasConfig : List TagAliasGroup := [⟨"colour", ["red", "crimson"]⟩]

/-- Files 1, 2, 3 tagged `colour=red`, `colour=crimson`, `colour=blue`. -/
def colourCatalog : Catalog :=
  { files := [⟨1, "a.png", "uploads/a.png", ""⟩, ⟨2, "b.png", "uploads/b.png", ""⟩,
      ⟨3, "c.png", "uploads/c.png", ""⟩]
    categories := [⟨1, "colour"⟩]
    tags := [⟨1, 1, "red"⟩, ⟨2, 1, "crimson"⟩, ⟨3, 1, "blue"⟩]
    fileTags := [⟨1, 1⟩, ⟨2, 2⟩, ⟨3, 3⟩] }

/-- C4 (amended): when the first alias group of the category containing a
case-insensitive match for `v` is `g`, the effective value set is `v` together
with the members of `g` that do not case-insensitively equal `v`; when every
member that case-insensitively equals `v` is written exactly as `v` (in
particular when `v` is written exactly as a group member and the group has no
case-variant duplicates), this is the entire group including the requested
value.  A value in no group yields the singleton.  The filter clause matches
exactly the files carrying a tag of the category with a value in this set. -/
theorem expandTagWithAliases_spec (config : List TagAliasGroup) (cat v : String)
    (g : TagAliasGroup) (hfind : findAliasGroup config cat v = some g)
    (hexact : ∀ a ∈ g.aliases, eqFold a v = true → a = v) :
    (expandTagWithAliases config cat v).toFinset = insert v g.aliases.toFinset ∧
    (∀ catalog fid,
      existsTagIn catalog fid cat (expandTagWithAliases config cat v) = true ↔
        HasTagValueIn catalog fid cat (expandTagWithAliases config cat v)) ∧
    (∀ config2 cat2 v2, findAliasGroup config2 cat2 v2 = none →
      expandTagWithAliases config2 cat2 v2 = [v2]) := by
  refine ⟨?_, fun catalog fid => existsTagIn_iff catalog fid cat _, ?_⟩
  · rw [expandTagWithAliases, hfind]
    ext x
    simp only [List.toFinset_cons, List.mem_toFinset, Finset.mem_insert,
      List.mem_filter, Bool.not_eq_true']
    constructor
    · rintro (rfl | ⟨hx, _⟩)
      · exact Or.inl rfl
      · exact Or.inr hx
    · rintro (rfl | hx)
      · exact Or.inl rfl
      · by_cases hf : eqFold x v = true
        · exact Or.inl (hexact x hx hf)
        · exact Or.inr ⟨hx, Bool.eq_false_iff.mpr hf⟩
  · intro config2 cat2 v2 h
    rw [expandTagWithAliases, h]

/-- Witness for C4 at the specification's example: with group
`{colour : red, crimson}`, filtering on `colour=crimson` matches the files
tagged `colour=red` and `colour=crimson` (and vice versa), while `colour=blue`
(in no group) matches only its exact tag. -/
theorem expandTagWithAliases_spec_witness :
    (expandTagWithAliases colourAliasConfig "colour" "crimson").toFinset =
      insert "crimson" (["red", "crimson"] : List String).toFinset ∧
    tagFilterIDs colourCatalog colourAliasConfig [⟨"colour", "crimson"⟩] = [1, 2] ∧
    tagFilterIDs colourCatalog colourAliasConfig [⟨"colour", "red"⟩] = [1, 2] ∧
    tagFilterIDs colourCatalog colourAliasConfig [⟨"colour", "blue"⟩] = [3] :=
  ⟨(expandTagWithAliases_spec colourAliasConfig "colour" "crimson"
      ⟨"colour", ["red", "crimson"]⟩ (by decide) (by decide)).1,
    by decide, by decide, by decide⟩

/-- Counterexample to C4 as stated: `"Crimson"` case-insensitively matches the
group member `"crimson"`, so the claim says the effective set is the entire
group including the request — containing `"crimson"` — but the code drops
every member that case-insensitively equals the request, so the file tagged
`colour=crimson` does not match a filter on `colour=Crimson`. -/
theorem expandTagWithAliases_counterexample :
    eqFold "crimson" "Crimson" = true ∧
    "crimson" ∈ (["red", "crimson"] : List String) ∧
    "crimson" ∉ expandTagWithAliases colourAliasConfig "colour" "Crimson" ∧
    existsTagIn colourCatalog 2 "colour"
      (expandTagWithAliases colourAliasConfig "colour" "Crimson") = false ∧
    HasTagValueIn colourCatalog 2 "colour" ["crimson"] := by
  refine ⟨by decide, by decide, by decide, by decide, ?_⟩
  exact ⟨⟨2, 2⟩, by decide, rfl, ⟨2, 1, "crimson"⟩, by decide, rfl,
    ⟨⟨1, "colour"⟩, by decide, rfl, rfl⟩, by decide⟩

/-- C5: a filter pair whose value is `"unassigned"` compiles to the NOT-EXISTS
clause, holds for a file exactly when it has no tag association in the
category, selects exactly the files with zero tags in the category, and does
not depend on the alias configuration. -/
theorem tagFilter_unassigned_spec (catalog : Catalog)
    (config config2 : List TagAliasGroup) (cname : String) :
    (∀ fid, filterClause catalog config ⟨cname, "unassigned"⟩ fid = true ↔
      ¬ HasTagInCategory catalog fid cname) ∧
    (∀ i, i ∈ tagFilterIDs catalog config [⟨cname, "unassigned"⟩] ↔
      ∃ fr ∈ catalog.files, fr.id = i ∧ ¬ HasTagInCategory catalog fr.id cname) ∧
    tagFilterIDs catalog config [⟨cname, "unassigned"⟩] =
      tagFilterIDs catalog config2 [⟨cname, "unassigned"⟩] := by
  have hclause : ∀ (cfg : List TagAliasGroup) fid,
      filterClause catalog cfg ⟨cname, "unassigned"⟩ fid =
        noTagInCategory catalog fid cname := by
    intro cfg fid
    simp [filterClause]
  refine ⟨fun fid => ?_, fun i => ?_, ?_⟩
  · rw [hclause]
    exact noTagInCategory_iff catalog fid cname
  · simp only [tagFilterIDs, List.mem_map, List.mem_filter, List.all_cons,
      List.all_nil, Bool.and_true, hclause]
    constructor
    · rintro ⟨fr, ⟨hfr, hcl⟩, rfl⟩
      exact ⟨fr, hfr, rfl, (noTagInCategory_iff catalog fr.id cname).mp hcl⟩
    · rintro ⟨fr, hfr, rfl, hno⟩
      exact ⟨fr, ⟨hfr, (noTagInCategory_iff catalog fr.id cname).mpr hno⟩, rfl⟩
  · simp only [tagFilterIDs, List.all_cons, List.all_nil, Bool.and_true, hclause]

/-! ## Bulk query language: tag boolean expressions -/

/-- Model of Go `strings.ToUpper` for ASCII content. -/
def goToUpper (l : List Char) : List Char := l.map Char.toUpper

/-- Model of Go `strings.Split(s, " OR ")`: splits at every leftmost
non-overlapping occurrence of the four-character separator. -/
def splitOR : List Char → List (List Char)
  | ' ' :: 'O' :: 'R' :: ' ' :: rest => [] :: splitOR rest
  | c :: rest =>
    match splitOR rest with
    | [] => [[c]]
    | t :: ts => (c :: t) :: ts
  | [] => [[]]

/-- Model of Go `strings.SplitN(s, ":", 2)`: split at the first colon,
`none` when there is no colon (the `len(parts) != 2` case). -/
def splitFirstColon : List Char → Option (List Char × List Char)
  | [] => none
  | c :: r =>
    if c = ':' then some ([], r)
    else (splitFirstColon r).map (fun p => (c :: p.1, p.2))

/-- A `category:value` pair of the bulk tag query (`TagPair` in the source). -/
structure TagPair where
  category : String
  value : String
deriving DecidableEq, Repr

/-- The pair-collection loop shared by `getFileIDsFromANDQuery` and
`getFileIDsFromORQuery`: trim, skip empty, split at the first colon (error
when absent), trim both halves. -/
def parsePairsLoop : List (List Char) → Except String (List TagPair)
  | [] => .ok []
  | p :: ps =>
    if goTrim p = [] then parsePairsLoop ps
    else
      match splitFirstColon (goTrim p) with
      | none =>
        .error ("invalid tag format '" ++ String.mk (goTrim p) ++
          "', expected 'category:value'")
      | some ab =>
        match parsePairsLoop ps with
        | .error e => .error e
        | .ok rest =>
          .ok (⟨String.mk (goTrim ab.1), String.mk (goTrim ab.2)⟩ :: rest)

/-- Ascending insertion (used to model `ORDER BY f.id`). -/
def insertAsc (x : Int) : List Int → List Int
  | [] => [x]
  | y :: ys => if x ≤ y then x :: y :: ys else y :: insertAsc x ys

/-- Ascending sort (models `ORDER BY f.id` of the tag-query SQL). -/
def sortAsc (l : List Int) : List Int := l.foldr insertAsc []

/-- From the source (`findFilesWithAllTags`): ids of files satisfying an
EXISTS subquery for every pair (exact, case-sensitive tag identity),
ascending by id. -/
def findFilesWithAllTags (catalog : Catalog) (tags : List TagPair) :
    Except String (List Int) :=
  if tags = [] then .error "no tags specified"
  else
    .ok (sortAsc ((catalog.files.filter (fun f =>
      tags.all (fun tp => existsTagIn catalog f.id tp.category [tp.value]))).map
        (fun f => f.id)))

/-- From the source (`findFilesWithAnyTag`): `SELECT DISTINCT f.id` over the
join restricted to files matching at least one pair, ascending by id. -/
def findFilesWithAnyTag (catalog : Catalog) (tags : List TagPair) :
    Except String (List Int) :=
  if tags = [] then .error "no tags specified"
  else
    .ok (sortAsc (dedupeKeepFirst [] ((catalog.files.filter (fun f =>
      tags.any (fun tp => existsTagIn catalog f.id tp.category [tp.value]))).map
        (fun f => f.id))))

/-- From the source (`getFileIDsFromANDQuery`): comma-separated pairs, AND
logic. -/
def getFileIDsFromANDQuery (catalog : Catalog) (q : List Char) :
    Except String (List Int) :=
  match parsePairsLoop (splitChar ',' q) with
  | .error e => .error e
  | .ok tags =>
    if tags = [] then .error "no valid tags found in query"
    else findFilesWithAllTags catalog tags

/-- From the source (`getFileIDsFromORQuery`): the query is uppercased as a
whole (`strings.Split(strings.ToUpper(query), " OR ")`), then split on
`" OR "`; OR logic over the resulting pairs. -/
def getFileIDsFromORQuery (catalog : Catalog) (q : List Char) :
    Except String (List Int) :=
  match parsePairsLoop (splitOR (goToUpper q)) with
  | .error e => .error e
  | .ok tags =>
    if tags = [] then .error "no valid tags found in query"
    else findFilesWithAnyTag catalog tags

/-- From the source (`getFileIDsFromTagQuery`): empty query is an error; a
query containing `" OR "` case-insensitively takes the OR path, otherwise the
AND path. -/
def getFileIDsFromTagQuery (catalog : Catalog) (query : String) :
    Except String (List Int) :=
  if goTrim query.data = [] then .error "empty query"
  else if containsSub " OR ".data (goToUpper (goTrim query.data)) then
    getFileIDsFromORQuery catalog (goTrim query.data)
  else getFileIDsFromANDQuery catalog (goTrim query.data)

/-! ## Bulk selection validation (`validateFileIDs`) -/

inductive ValidateError where
  | noIDs
  | notFound (missing : List Int)
deriving DecidableEq, Repr

/-- Ascending insertion of file rows by id (models `ORDER BY id`). -/
def insertByID (x : FileRow) : List FileRow → List FileRow
  | [] => [x]
  | y :: ys => if x.id ≤ y.id then x :: y :: ys else y :: insertByID x ys

def sortByID (l : List FileRow) : List FileRow := l.foldr insertByID []

/-- From `main.go` (`validateFileIDs`): `SELECT id, filename, path FROM files
WHERE id IN (...) ORDER BY id`, collect found ids, report all missing ids in
one error (the Go code formats the missing slice into a single message; the
model carries the list in the error value). -/
def validateFileIDs (catalog : Catalog) (fileIDs : List Int) :
    Except ValidateError (List FileRow) :=
  if fileIDs = [] then .error .noIDs
  else if fileIDs.filter (fun i =>
      !(((sortByID (catalog.files.filter
        (fun f => fileIDs.any (fun j => j = f.id)))).map (fun f => f.id)).any
          (fun j => j = i))) = [] then
    .ok (sortByID (catalog.files.filter (fun f => fileIDs.any (fun j => j = f.id))))
  else
    .error (.notFound (fileIDs.filter (fun i =>
      !(((sortByID (catalog.files.filter
        (fun f => fileIDs.any (fun j => j = f.id)))).map (fun f => f.id)).any
          (fun j => j = i)))))

theorem mem_insertByID (x y : FileRow) :
    ∀ (l : List FileRow), x ∈ insertByID y l ↔ x = y ∨ x ∈ l
  | [] => by simp [insertByID]
  | z :: zs => by
    simp only [insertByID]
    split
    · simp
    · rw [List.mem_cons, mem_insertByID x y zs, List.mem_cons]
      tauto

theorem mem_sortByID (x : FileRow) :
    ∀ (l : List FileRow), x ∈ sortByID l ↔ x ∈ l
  | [] => by simp [sortByID]
  | z :: zs => by
    simp only [sortByID, List.foldr_cons]
    rw [show List.foldr insertByID [] zs = sortByID zs from rfl,
      mem_insertByID x z (sortByID zs), mem_sortByID x zs, List.mem_cons]

/-- C8: for a non-empty id list, validation succeeds exactly when every id
resolves to an existing file row; otherwise it returns one error carrying the
whole list of missing ids. -/
theorem validateFileIDs_spec (catalog : Catalog) (ids : List Int)
    (hne : ids ≠ []) :
    ((validateFileIDs catalog ids).isOk = true ↔
      ∀ i ∈ ids, ∃ f ∈ catalog.files, f.id = i) ∧
    (ids.filter (fun i => !(catalog.files.any (fun f => f.id = i))) ≠ [] →
      validateFileIDs catalog ids =
        .error (.notFound
          (ids.filter (fun i => !(catalog.files.any (fun f => f.id = i)))))) := by
  have hmiss :
      ids.filter (fun i =>
        !(((sortByID (catalog.files.filter
          (fun f => ids.any (fun j => j = f.id)))).map (fun f => f.id)).any
            (fun j => j = i))) =
      ids.filter (fun i => !(catalog.files.any (fun f => f.id = i))) := by
    apply List.filter_congr
    intro i hi
    congr 1
    rw [Bool.eq_iff_iff]
    simp only [List.any_eq_true, List.mem_map, decide_eq_true_eq, List.mem_filter]
    constructor
    · rintro ⟨j, ⟨f, hfs, rfl⟩, rfl⟩
      rw [mem_sortByID, List.mem_filter] at hfs
      exact ⟨f, hfs.1, rfl⟩
    · rintro ⟨f, hf, hfi⟩
      refine ⟨f.id, ⟨f, ?_, rfl⟩, hfi⟩
      rw [mem_sortByID, List.mem_filter]
      exact ⟨hf, by
        simp only [List.any_eq_true, decide_eq_true_eq]
        exact ⟨i, hi, hfi.symm⟩⟩
  have hval : validateFileIDs catalog ids =
      if (ids.filter (fun i => !(catalog.files.any (fun f => f.id = i)))) = []
      then .ok (sortByID (catalog.files.filter (fun f => ids.any (fun j => j = f.id))))
      else .error (.notFound
        (ids.filter (fun i => !(catalog.files.any (fun f => f.id = i))))) := by
    rw [validateFileIDs, if_neg hne, hmiss]
  constructor
  · rw [hval]
    split
    · rename_i hempty
      simp only [Except.isOk, Except.toBool, true_iff]
      intro i hi
      have h1 : ¬ (!(catalog.files.any (fun f => f.id = i))) = true :=
        List.filter_eq_nil_iff.mp hempty i hi
      simp only [Bool.not_eq_true', Bool.not_eq_false, List.any_eq_true,
        decide_eq_true_eq] at h1
      exact h1
    · rename_i hnonempty
      simp only [Except.isOk, Except.toBool, Bool.false_eq_true, false_iff]
      push_neg
      have hex : ∃ i ∈ ids, (!(catalog.files.any (fun f => f.id = i))) = true := by
        by_contra hcon
        push_neg at hcon
        refine hnonempty (List.filter_eq_nil_iff.mpr fun i hi => ?_)
        exact hcon i hi
      obtain ⟨i, hi, hb⟩ := hex
      refine ⟨i, hi, ?_⟩
      simp only [Bool.not_eq_true', List.any_eq_false, decide_eq_true_eq] at hb
      intro f hf
      exact hb f hf
  · intro hnonempty
    rw [hval, if_neg hnonempty]

/-! ### Concrete data for the tag-query claim -/

/-- File 1 tagged `colour=blue` and `size=large`; file 2 tagged `colour=red`. -/
def queryCatalog : Catalog :=
  { files := [⟨1, "a.png", "uploads/a.png", ""⟩, ⟨2, "b.png", "uploads/b.png", ""⟩]
    categories := [⟨1, "colour"⟩, ⟨2, "size"⟩]
    tags := [⟨1, 1, "blue"⟩, ⟨2, 1, "red"⟩, ⟨3, 2, "large"⟩]
    fileTags := [⟨1, 1⟩, ⟨2, 2⟩, ⟨1, 3⟩] }

/-- C2 evaluated: the AND query returns the intersection as claimed, but the
OR path uppercases the whole query before splitting, so the pairs become
`COLOUR:BLUE` / `COLOUR:RED`; tag matching is case-sensitive (BINARY
collation), so the OR query returns no files where the claim requires the
union `[1, 2]`. -/
theorem getFileIDsFromTagQuery_or_divergence :
    getFileIDsFromTagQuery queryCatalog "colour:blue,size:large" = .ok [1] ∧
    getFileIDsFromTagQuery queryCatalog "colour:blue OR colour:red" = .ok [] ∧
    getFileIDsFromORQuery queryCatalog "colour:blue OR colour:red".data =
      findFilesWithAnyTag queryCatalog [⟨"COLOUR", "BLUE"⟩, ⟨"COLOUR", "RED"⟩] ∧
    existsTagIn queryCatalog 1 "colour" ["blue"] = true ∧
    existsTagIn queryCatalog 2 "colour" ["red"] = true ∧
    sortAsc (dedupeKeepFirst [] ((queryCatalog.files.filter (fun f =>
      [TagPair.mk "colour" "blue", ⟨"colour", "red"⟩].any
        (fun tp => existsTagIn queryCatalog f.id tp.category [tp.value]))).map
        (fun f => f.id))) = [1, 2] :=
  ⟨by rfl, by rfl, by rfl, by decide, by decide, by rfl⟩

/-- Witness for C8: on the concrete catalog, ids `[1, 4, 5]` yield one error
listing both missing ids `[4, 5]` together, and ids `[3, 1]` validate. -/
theorem validateFileIDs_spec_witness :
    validateFileIDs colourCatalog [1, 4, 5] =
      .error (.notFound [4, 5]) ∧
    (validateFileIDs colourCatalog [3, 1]).isOk = true := by
  constructor
  · have h := (validateFileIDs_spec colourCatalog [1, 4, 5] (by decide)).2 (by decide)
    exact h
  · exact (validateFileIDs_spec colourCatalog [3, 1] (by decide)).1.mpr (by decide)

/-! ## Filesystem model

The upload directory is modelled as an association list from paths to file
identities (contents are irrelevant; a `Nat` token tracks which physical
object sits at a path). -/

/-- A disk: finitely many paths holding file tokens. -/
def Disk : Type := List (String × Nat)

instance : DecidableEq Disk := by
  unfold Disk
  infer_instance

/-- The file at path `p`, if any. -/
def diskGet (d : Disk) (p : String) : Option Nat :=
  match d.find? (fun e => e.1 = p) with
  | some e => some e.2
  | none => none

/-- Remove every entry at path `p`. -/
def diskRemoveKey (d : Disk) (p : String) : Disk :=
  d.filter (fun e => !(e.1 = p))

/-- Overwrite the content of path `p` (`none` deletes). -/
def diskSet (d : Disk) (p : String) (v : Option Nat) : Disk :=
  match v with
  | none => diskRemoveKey d p
  | some x => (p, x) :: diskRemoveKey d p

/-- Model of Go `os.Rename(src, dst)`: fails (returning `none`) exactly when
the source does not exist; on success the object moves, overwriting any file
at the destination. -/
def osRename (d : Disk) (src dst : String) : Option Disk :=
  match diskGet d src with
  | none => none
  | some v => some (diskSet (diskSet d src none) dst (some v))

/-- Model of `os.Rename` with the returned error ignored, as in the rollback branches
of `fileRenameHandler`. -/
def osRenameQuiet (d : Disk) (src dst : String) : Disk :=
  match osRename d src dst with
  | none => d
  | some d2 => d2

theorem diskGet_removeKey (d : Disk) (p q : String) :
    diskGet (diskRemoveKey d p) q = if q = p then none else diskGet d q := by
  induction d with
  | nil => simp [diskGet, diskRemoveKey]
  | cons e rest ih =>
    by_cases hep : e.1 = p
    · have hstep : diskRemoveKey (e :: rest) p = diskRemoveKey rest p := by
        simp [diskRemoveKey, List.filter_cons, hep]
      rw [hstep, ih]
      by_cases hqp : q = p
      · rw [if_pos hqp, if_pos hqp]
      · rw [if_neg hqp, if_neg hqp]
        have heq : ¬ e.1 = q := fun hc => hqp (hc.symm.trans hep)
        unfold diskGet
        rw [List.find?_cons_of_neg _ (by simpa using heq)]
    · have hstep : diskRemoveKey (e :: rest) p = e :: diskRemoveKey rest p := by
        simp [diskRemoveKey, List.filter_cons, hep]
      rw [hstep]
      by_cases heq : e.1 = q
      · have hqp : ¬ q = p := fun hc => hep (heq.trans hc)
        rw [if_neg hqp]
        unfold diskGet
        rw [List.find?_cons_of_pos _ (by simpa using heq),
          List.find?_cons_of_pos _ (by simpa using heq)]
      · unfold diskGet
        rw [List.find?_cons_of_neg _ (by simpa using heq),
          List.find?_cons_of_neg _ (by simpa using heq)]
        by_cases hqp : q = p
        · rw [if_pos hqp]
          have := ih
          rw [if_pos hqp] at this
          unfold diskGet at this
          exact this
        · rw [if_neg hqp]
          have := ih
          rw [if_neg hqp] at this
          unfold diskGet at this
          exact this

theorem diskGet_set (d : Disk) (p : String) (v : Option Nat) (q : String) :
    diskGet (diskSet d p v) q = if q = p then v else diskGet d q := by
  cases v with
  | none => exact diskGet_removeKey d p q
  | some x =>
    unfold diskSet
    by_cases hqp : q = p
    · subst hqp
      unfold diskGet
      rw [List.find?_cons_of_pos _ (by simp)]
      simp
    · unfold diskGet
      rw [List.find?_cons_of_neg _ (by simpa using fun h => hqp h.symm)]
      have := diskGet_removeKey d p q
      rw [if_neg hqp] at this
      unfold diskGet diskRemoveKey at this
      rw [if_neg hqp]
      exact this

theorem diskGet_osRenameQuiet (d : Disk) (src dst q : String) :
    diskGet (osRenameQuiet d src dst) q =
      match diskGet d src with
      | none => diskGet d q
      | some v =>
        if q = dst then some v else if q = src then none else diskGet d q := by
  unfold osRenameQuiet osRename
  cases hsrc : diskGet d src with
  | none => simp
  | some v => simp only [diskGet_set]

theorem osRename_some {d : Disk} {src : String} {v : Nat}
    (h : diskGet d src = some v) (dst : String) :
    osRename d src dst = some (diskSet (diskSet d src none) dst (some v)) := by
  unfold osRename
  rw [h]

/-! ## Resource lifecycle: rename and delete handlers -/

/-- Combined application state: the catalog database and the disk. -/
structure AppState where
  catalog : Catalog
  disk : Disk
deriving DecidableEq

/-- Model of `db.QueryRow("SELECT ... FROM files WHERE id=?")`: first matching row. -/
def lookupFile (files : List FileRow) (fid : Int) : Option FileRow :=
  files.find? (fun f => f.id = fid)

/-- Model of `UPDATE files SET filename=?, path=? WHERE id=?`. -/
def updateFileRow (files : List FileRow) (fid : Int)
    (newName newPath : String) : List FileRow :=
  files.map (fun f =>
    if f.id = fid then { f with filename := newName, path := newPath } else f)

/-- Model of `filepath.Join(uploadDir, "thumbnails", name + ".jpg")`. -/
def thumbPath (uploadDir name : String) : String :=
  joinPath (joinPath uploadDir "thumbnails") (name ++ ".jpg")

/-- The name actually used by the rename handler:
`sanitizeFilename(strings.TrimSpace(r.FormValue("newfilename")))`. -/
def submittedName (raw : String) : String :=
  sanitizeFilename (String.mk (goTrim raw.data))

inductive RenameResult where
  | emptyName
  | notFound
  | noopSuccess
  | conflict
  | renameFailed
  | thumbRenameFailed
  | dbUpdateFailed
  | success
deriving DecidableEq, Repr

/-- The tail of `fileRenameHandler` after the disk renames: the catalog
`UPDATE`, whose failure (injected by `dbUpdateFails`) triggers the rollback
renames with their errors ignored. -/
def renameDBUpdate (catalog : Catalog) (d : Disk) (uploadDir : String)
    (fid : Int) (cur : FileRow) (newFilename : String) (dbUpdateFails : Bool) :
    AppState × RenameResult :=
  if dbUpdateFails then
    (⟨catalog,
      (fun d1 => if (diskGet d1 (thumbPath uploadDir newFilename)).isSome then
          osRenameQuiet d1 (thumbPath uploadDir newFilename)
            (thumbPath uploadDir cur.filename)
        else d1)
        (osRenameQuiet d (joinPath uploadDir newFilename) cur.path)⟩,
      .dbUpdateFailed)
  else
    (⟨{ catalog with
        files := updateFileRow catalog.files fid newFilename
          (joinPath uploadDir newFilename) }, d⟩, .success)

/-- From `main.go` / the current source (`fileRenameHandler`), for a POST
request: validate the sanitized name, look up the row, no-op on an unchanged
name, reject a conflicting target, rename the physical file, rename the
thumbnail if one exists at the old name (rolling the file rename back on
failure), then update the catalog row; a catalog failure rolls both renames
back.  Categories/tags/associations are untouched by this handler and are
kept empty in the model. -/
def fileRenameHandlerCore (st : AppState)
    (uploadDir : String) (fid : Int) (newFilename : String)
    (dbUpdateFails : Bool) : AppState × RenameResult :=
  if newFilename = "" then (st, .emptyName)
  else
    match lookupFile st.catalog.files fid with
    | none => (st, .notFound)
    | some cur =>
      if cur.filename = newFilename then (st, .noopSuccess)
      else if (diskGet st.disk (joinPath uploadDir newFilename)).isSome then
        (st, .conflict)
      else
        match osRename st.disk cur.path (joinPath uploadDir newFilename) with
        | none => (st, .renameFailed)
        | some d1 =>
          if (diskGet d1 (thumbPath uploadDir cur.filename)).isSome then
            match osRename d1 (thumbPath uploadDir cur.filename)
                (thumbPath uploadDir newFilename) with
            | none =>
              (⟨st.catalog,
                osRenameQuiet d1 (joinPath uploadDir newFilename) cur.path⟩,
                .thumbRenameFailed)
            | some d2 =>
              renameDBUpdate st.catalog d2 uploadDir fid cur newFilename dbUpdateFails
          else renameDBUpdate st.catalog d1 uploadDir fid cur newFilename dbUpdateFails

/-- Handler `fileRenameHandler` applied to the submitted form value. -/
def fileRenameHandler (st : AppState)
    (uploadDir : String) (fid : Int) (raw : String) (dbUpdateFails : Bool) :
    AppState × RenameResult :=
  fileRenameHandlerCore st uploadDir fid (submittedName raw) dbUpdateFails

/-- Injected failures for the delete handler: one flag per database statement
and per best-effort physical removal. -/
structure DeleteFailures where
  beginFails : Bool
  deleteTagsFails : Bool
  deleteFileFails : Bool
  commitFails : Bool
  removeFileFails : Bool
  removeThumbFails : Bool
deriving DecidableEq, Repr

inductive DeleteResult where
  | notFound
  | txBeginFailed
  | deleteTagsFailed
  | deleteFileFailed
  | commitFailed
  | success
deriving DecidableEq, Repr

/-- The delete transaction: remove the file's associations and its row.  The
two `DELETE`s run in one transaction, so they become visible only together at
commit. -/
def deleteTx (c : Catalog) (fid : Int) : Catalog :=
  { c with
    fileTags := c.fileTags.filter (fun ft => !(ft.fileId = fid))
    files := c.files.filter (fun f => !(f.id = fid)) }

/-- Model of `os.Remove` with the error only logged: on failure the disk is
unchanged. -/
def osRemoveQuiet (d : Disk) (p : String) (fails : Bool) : Disk :=
  if fails then d else diskSet d p none

/-- From `main.go` / the current source (`fileDeleteHandler`), for a POST
request: look up the row; run both `DELETE`s and the commit inside one
transaction (any failure rolls the whole transaction back via the deferred
`tx.Rollback()`, leaving the catalog unchanged); after commit, best-effort
removal of the physical file and, if present, the thumbnail — their failures
are logged and do not touch the database. -/
def fileDeleteHandler (st : AppState) (uploadDir : String) (fid : Int)
    (fl : DeleteFailures) : AppState × DeleteResult :=
  match lookupFile st.catalog.files fid with
  | none => (st, .notFound)
  | some cur =>
    if fl.beginFails then (st, .txBeginFailed)
    else if fl.deleteTagsFails then (st, .deleteTagsFailed)
    else if fl.deleteFileFails then (st, .deleteFileFailed)
    else if fl.commitFails then (st, .commitFailed)
    else
      (⟨deleteTx st.catalog fid,
        (fun d1 => if (diskGet d1 (thumbPath uploadDir cur.filename)).isSome then
            osRemoveQuiet d1 (thumbPath uploadDir cur.filename) fl.removeThumbFails
          else d1)
          (osRemoveQuiet st.disk cur.path fl.removeFileFails)⟩,
        .success)

/-! ### Path distinctness -/

/-- Number of separators in a path. -/
def countSlash (s : String) : Nat := s.data.count '/'

theorem countSlash_joinPath (d n : String) :
    countSlash (joinPath d n) = countSlash d + 1 + countSlash n := by
  have h : (joinPath d n).data = d.data ++ '/' :: n.data := by
    simp [joinPath, String.data_append]
  rw [countSlash, h, List.count_append]
  simp [List.count_cons, countSlash]
  omega

theorem countSlash_no_slash {s : String}
    (h : containsChar '/' s.data = false) : countSlash s = 0 := by
  simp only [countSlash, List.count_eq_zero]
  intro hmem
  simp only [containsChar, List.any_eq_false, decide_eq_true_eq] at h
  exact h _ hmem rfl

/-- A separator-free name directly under the upload root never collides with
a thumbnail path (which sits one directory deeper). -/
theorem joinPath_ne_thumbPath (up n m : String)
    (h : containsChar '/' n.data = false) :
    joinPath up n ≠ thumbPath up m := by
  intro hc
  have hcount := congrArg countSlash hc
  rw [countSlash_joinPath, countSlash_no_slash h, thumbPath,
    countSlash_joinPath, countSlash_joinPath] at hcount
  have hthumbs : countSlash "thumbnails" = 0 := by decide
  omega

/-- C1 (amended): a rename whose catalog update fails restores the original
filename and any moved thumbnail, leaving disk and catalog exactly as before —
provided no stale file already occupies the thumbnail path of the new name
before the attempt (otherwise the rollback's `Stat(thumbNew)`-guarded rename
moves that stale file to the old thumbnail name). -/
theorem fileRenameHandler_rollback (st : AppState) (uploadDir : String)
    (fid : Int) (raw : String) (cur : FileRow) (v : Nat)
    (hlook : lookupFile st.catalog.files fid = some cur)
    (hdiff : cur.filename ≠ submittedName raw)
    (hsrc : diskGet st.disk cur.path = some v)
    (hnew : diskGet st.disk (joinPath uploadDir (submittedName raw)) = none)
    (hthumbnew : diskGet st.disk (thumbPath uploadDir (submittedName raw)) = none) :
    (fileRenameHandler st uploadDir fid raw true).2 = .dbUpdateFailed ∧
    (fileRenameHandler st uploadDir fid raw true).1.catalog = st.catalog ∧
    ∀ p, diskGet (fileRenameHandler st uploadDir fid raw true).1.disk p =
      diskGet st.disk p := by
  have hn_ne : submittedName raw ≠ "" := sanitizeFilename_ne_empty _
  have hnoslash : containsChar '/' (submittedName raw).data = false :=
    sanitizeFilename_no_slash _
  have hNTO : joinPath uploadDir (submittedName raw) ≠
      thumbPath uploadDir cur.filename :=
    joinPath_ne_thumbPath _ _ _ hnoslash
  have hNTN : joinPath uploadDir (submittedName raw) ≠
      thumbPath uploadDir (submittedName raw) :=
    joinPath_ne_thumbPath _ _ _ hnoslash
  have hNC : joinPath uploadDir (submittedName raw) ≠ cur.path := by
    intro hc
    rw [hc, hsrc] at hnew
    exact Option.noConfusion hnew
  have hTNC : thumbPath uploadDir (submittedName raw) ≠ cur.path := by
    intro hc
    rw [hc, hsrc] at hthumbnew
    exact Option.noConfusion hthumbnew
  have hget_d1 : ∀ q,
      diskGet (diskSet (diskSet st.disk cur.path none)
        (joinPath uploadDir (submittedName raw)) (some v)) q =
      if q = joinPath uploadDir (submittedName raw) then some v
      else if q = cur.path then none else diskGet st.disk q := by
    intro q
    rw [diskGet_set, diskGet_set]
  suffices h : ∃ d2, fileRenameHandler st uploadDir fid raw true =
      (⟨st.catalog, d2⟩, .dbUpdateFailed) ∧
      ∀ p, diskGet d2 p = diskGet st.disk p by
    obtain ⟨d2, heq, hpt⟩ := h
    rw [heq]
    exact ⟨rfl, rfl, hpt⟩
  unfold fileRenameHandler fileRenameHandlerCore
  rw [if_neg hn_ne, hlook]
  simp only
  rw [if_neg (fun hc => hdiff hc), if_neg (by rw [hnew]; simp),
    osRename_some hsrc]
  simp only
  have hd1TO : diskGet (diskSet (diskSet st.disk cur.path none)
      (joinPath uploadDir (submittedName raw)) (some v))
      (thumbPath uploadDir cur.filename) =
      if thumbPath uploadDir cur.filename = cur.path then none
      else diskGet st.disk (thumbPath uploadDir cur.filename) := by
    rw [hget_d1, if_neg (fun hc => hNTO hc.symm)]
  by_cases hTOcase : thumbPath uploadDir cur.filename = cur.path ∨
      diskGet st.disk (thumbPath uploadDir cur.filename) = none
  · -- no thumbnail at the old name once the file rename happened: skip the
    -- thumbnail rename, roll only the file rename back
    have hnothumb : diskGet (diskSet (diskSet st.disk cur.path none)
        (joinPath uploadDir (submittedName raw)) (some v))
        (thumbPath uploadDir cur.filename) = none := by
      rw [hd1TO]
      rcases hTOcase with hc | hc
      · rw [if_pos hc]
      · split
        · rfl
        · exact hc
    rw [if_neg (by rw [hnothumb]; simp)]
    unfold renameDBUpdate
    rw [if_pos rfl]
    simp only
    have hd1N : diskGet (diskSet (diskSet st.disk cur.path none)
        (joinPath uploadDir (submittedName raw)) (some v))
        (joinPath uploadDir (submittedName raw)) = some v := by
      rw [hget_d1, if_pos rfl]
    have hget_r1 : ∀ q,
        diskGet (osRenameQuiet (diskSet (diskSet st.disk cur.path none)
          (joinPath uploadDir (submittedName raw)) (some v))
          (joinPath uploadDir (submittedName raw)) cur.path) q =
        if q = cur.path then some v
        else if q = joinPath uploadDir (submittedName raw) then none
        else diskGet (diskSet (diskSet st.disk cur.path none)
          (joinPath uploadDir (submittedName raw)) (some v)) q := by
      intro q
      rw [diskGet_osRenameQuiet, hd1N]
    have hcondTN : diskGet (osRenameQuiet (diskSet (diskSet st.disk cur.path none)
        (joinPath uploadDir (submittedName raw)) (some v))
        (joinPath uploadDir (submittedName raw)) cur.path)
        (thumbPath uploadDir (submittedName raw)) = none := by
      rw [hget_r1, if_neg hTNC, if_neg (fun hc => hNTN hc.symm), hget_d1,
        if_neg (fun hc => hNTN hc.symm), if_neg hTNC, hthumbnew]
    rw [if_neg (by rw [hcondTN]; simp)]
    refine ⟨_, rfl, ?_⟩
    intro p
    rw [hget_r1 p, hget_d1 p]
    by_cases hpC : p = cur.path
    · rw [if_pos hpC, hpC, hsrc]
    · rw [if_neg hpC]
      by_cases hpN : p = joinPath uploadDir (submittedName raw)
      · rw [if_pos hpN, hpN, hnew]
      · rw [if_neg hpN, if_neg hpN, if_neg hpC]
  · -- a thumbnail exists at the old name (and the old path is not the
    -- thumbnail itself): rename it too, then roll both renames back
    push_neg at hTOcase
    obtain ⟨hTOC, hTOval⟩ := hTOcase
    obtain ⟨w, hw⟩ := Option.ne_none_iff_exists'.mp hTOval
    have hTOTN : thumbPath uploadDir cur.filename ≠
        thumbPath uploadDir (submittedName raw) := by
      intro hc
      rw [hc, hthumbnew] at hw
      exact Option.noConfusion hw
    have hd1TOw : diskGet (diskSet (diskSet st.disk cur.path none)
        (joinPath uploadDir (submittedName raw)) (some v))
        (thumbPath uploadDir cur.filename) = some w := by
      rw [hd1TO, if_neg hTOC, hw]
    rw [if_pos (by rw [hd1TOw]; simp), osRename_some hd1TOw]
    simp only
    unfold renameDBUpdate
    rw [if_pos rfl]
    simp only
    have hget_d2 : ∀ q,
        diskGet (diskSet (diskSet (diskSet (diskSet st.disk cur.path none)
          (joinPath uploadDir (submittedName raw)) (some v))
          (thumbPath uploadDir cur.filename) none)
          (thumbPath uploadDir (submittedName raw)) (some w)) q =
        if q = thumbPath uploadDir (submittedName raw) then some w
        else if q = thumbPath uploadDir cur.filename then none
        else diskGet (diskSet (diskSet st.disk cur.path none)
          (joinPath uploadDir (submittedName raw)) (some v)) q := by
      intro q
      rw [diskGet_set, diskGet_set]
    have hd2N : diskGet (diskSet (diskSet (diskSet (diskSet st.disk cur.path none)
        (joinPath uploadDir (submittedName raw)) (some v))
        (thumbPath uploadDir cur.filename) none)
        (thumbPath uploadDir (submittedName raw)) (some w))
        (joinPath uploadDir (submittedName raw)) = some v := by
      rw [hget_d2, if_neg hNTN, if_neg hNTO, hget_d1, if_pos rfl]
    have hget_r1 : ∀ q,
        diskGet (osRenameQuiet (diskSet (diskSet (diskSet (diskSet st.disk cur.path none)
          (joinPath uploadDir (submittedName raw)) (some v))
          (thumbPath uploadDir cur.filename) none)
          (thumbPath uploadDir (submittedName raw)) (some w))
          (joinPath uploadDir (submittedName raw)) cur.path) q =
        if q = cur.path then some v
        else if q = joinPath uploadDir (submittedName raw) then none
        else diskGet (diskSet (diskSet (diskSet (diskSet st.disk cur.path none)
          (joinPath uploadDir (submittedName raw)) (some v))
          (thumbPath uploadDir cur.filename) none)
          (thumbPath uploadDir (submittedName raw)) (some w)) q := by
      intro q
      rw [diskGet_osRenameQuiet, hd2N]
    have hr1TN : diskGet (osRenameQuiet (diskSet (diskSet (diskSet (diskSet st.disk cur.path none)
        (joinPath uploadDir (submittedName raw)) (some v))
        (thumbPath uploadDir cur.filename) none)
        (thumbPath uploadDir (submittedName raw)) (some w))
        (joinPath uploadDir (submittedName raw)) cur.path)
        (thumbPath uploadDir (submittedName raw)) = some w := by
      rw [hget_r1, if_neg hTNC, if_neg (fun hc => hNTN hc.symm), hget_d2,
        if_pos rfl]
    rw [if_pos (by rw [hr1TN]; simp)]
    have hget_r2 : ∀ q,
        diskGet (osRenameQuiet (osRenameQuiet (diskSet (diskSet (diskSet (diskSet st.disk cur.path none)
          (joinPath uploadDir (submittedName raw)) (some v))
          (thumbPath uploadDir cur.filename) none)
          (thumbPath uploadDir (submittedName raw)) (some w))
          (joinPath uploadDir (submittedName raw)) cur.path)
          (thumbPath uploadDir (submittedName raw))
          (thumbPath uploadDir cur.filename)) q =
        if q = thumbPath uploadDir cur.filename then some w
        else if q = thumbPath uploadDir (submittedName raw) then none
        else diskGet (osRenameQuiet (diskSet (diskSet (diskSet (diskSet st.disk cur.path none)
          (joinPath uploadDir (submittedName raw)) (some v))
          (thumbPath uploadDir cur.filename) none)
          (thumbPath uploadDir (submittedName raw)) (some w))
          (joinPath uploadDir (submittedName raw)) cur.path) q := by
      intro q
      rw [diskGet_osRenameQuiet, hr1TN]
    refine ⟨_, rfl, ?_⟩
    intro p
    rw [hget_r2 p, hget_r1 p, hget_d2 p, hget_d1 p]
    by_cases hpTO : p = thumbPath uploadDir cur.filename
    · rw [if_pos hpTO, hpTO, hw]
    · rw [if_neg hpTO]
      by_cases hpTN : p = thumbPath uploadDir (submittedName raw)
      · rw [if_pos hpTN, hpTN, hthumbnew]
      · rw [if_neg hpTN]
        by_cases hpC : p = cur.path
        · rw [if_pos hpC, hpC, hsrc]
        · rw [if_neg hpC]
          by_cases hpN : p = joinPath uploadDir (submittedName raw)
          · rw [if_pos hpN, hpN, hnew]
          · rw [if_neg hpN, if_neg hpTN, if_neg hpTO, if_neg hpN, if_neg hpC]

/-- A one-file state with a thumbnail at the old name, for exercising the
rollback. -/
def renameOkState : AppState :=
  { catalog := ⟨[⟨1, "old.png", "uploads/old.png", ""⟩], [], [], []⟩,
    disk := [("uploads/old.png", 5), ("uploads/thumbnails/old.png.jpg", 6)] }

/-- Witness for C1 (amended) at a concrete state whose thumbnail exists at the
old name and whose new thumbnail path is free: the failed rename reports the
database error and both the file path and the thumbnail path read back
exactly as before. -/
theorem fileRenameHandler_rollback_witness :
    (fileRenameHandler renameOkState "uploads" 1 "new.png" true).2 =
      .dbUpdateFailed ∧
    diskGet (fileRenameHandler renameOkState "uploads" 1 "new.png" true).1.disk
        "uploads/thumbnails/old.png.jpg" =
      diskGet renameOkState.disk "uploads/thumbnails/old.png.jpg" ∧
    diskGet (fileRenameHandler renameOkState "uploads" 1 "new.png" true).1.disk
        "uploads/old.png" =
      diskGet renameOkState.disk "uploads/old.png" :=
  ⟨(fileRenameHandler_rollback renameOkState "uploads" 1 "new.png"
      ⟨1, "old.png", "uploads/old.png", ""⟩ 5 (by rfl) (by decide) (by rfl)
      (by rfl) (by rfl)).1,
    (fileRenameHandler_rollback renameOkState "uploads" 1 "new.png"
      ⟨1, "old.png", "uploads/old.png", ""⟩ 5 (by rfl) (by decide) (by rfl)
      (by rfl) (by rfl)).2.2 "uploads/thumbnails/old.png.jpg",
    (fileRenameHandler_rollback renameOkState "uploads" 1 "new.png"
      ⟨1, "old.png", "uploads/old.png", ""⟩ 5 (by rfl) (by decide) (by rfl)
      (by rfl) (by rfl)).2.2 "uploads/old.png"⟩

/-- A state with a stale thumbnail already sitting at the thumbnail path of
the new name (the old name has no thumbnail). -/
def staleThumbState : AppState :=
  { catalog := ⟨[⟨1, "old.png", "uploads/old.png", ""⟩], [], [], []⟩,
    disk := [("uploads/old.png", 1), ("uploads/thumbnails/new.png.jpg", 2)] }

/-- Counterexample to C1 as stated: all of the claim's premises hold (the
physical rename succeeded — the reported error is the catalog one — and no
thumbnail existed at the old name, so no thumbnail rename was needed), yet
the disk after the failed rename differs from the disk before: the rollback's
`Stat(thumbNew)`-guarded rename moves the pre-existing stale thumbnail of the
new name onto the old name. -/
theorem fileRenameHandler_rollback_counterexample :
    (fileRenameHandler staleThumbState "uploads" 1 "new.png" true).2 =
      .dbUpdateFailed ∧
    diskGet staleThumbState.disk "uploads/thumbnails/old.png.jpg" = none ∧
    diskGet staleThumbState.disk "uploads/thumbnails/new.png.jpg" = some 2 ∧
    diskGet (fileRenameHandler staleThumbState "uploads" 1 "new.png" true).1.disk
      "uploads/thumbnails/old.png.jpg" = some 2 ∧
    diskGet (fileRenameHandler staleThumbState "uploads" 1 "new.png" true).1.disk
      "uploads/thumbnails/new.png.jpg" = none :=
  ⟨by rfl, by rfl, by rfl, by rfl, by rfl⟩

/-- C3: the two `DELETE`s of the delete handler are atomic — under any
injected failures the catalog is either untouched or has both the file row
and all its associations removed — and once the transaction commits the file
is gone from the catalog regardless of whether the physical-file or thumbnail
removal fails; physical failures never roll the database back. -/
theorem fileDeleteHandler_atomic (st : AppState) (uploadDir : String)
    (fid : Int) (fl : DeleteFailures) (cur : FileRow)
    (hlook : lookupFile st.catalog.files fid = some cur)
    (hb : fl.beginFails = false) (ht : fl.deleteTagsFails = false)
    (hf : fl.deleteFileFails = false) (hc : fl.commitFails = false) :
    (fileDeleteHandler st uploadDir fid fl).2 = .success ∧
    (fileDeleteHandler st uploadDir fid fl).1.catalog = deleteTx st.catalog fid ∧
    (∀ f ∈ (fileDeleteHandler st uploadDir fid fl).1.catalog.files, f.id ≠ fid) ∧
    (∀ ft ∈ (fileDeleteHandler st uploadDir fid fl).1.catalog.fileTags,
      ft.fileId ≠ fid) ∧
    (∀ fl2 : DeleteFailures,
      (fileDeleteHandler st uploadDir fid fl2).1.catalog = st.catalog ∨
      (fileDeleteHandler st uploadDir fid fl2).1.catalog = deleteTx st.catalog fid) := by
  have hrun : fileDeleteHandler st uploadDir fid fl =
      (⟨deleteTx st.catalog fid,
        (fun d1 => if (diskGet d1 (thumbPath uploadDir cur.filename)).isSome then
            osRemoveQuiet d1 (thumbPath uploadDir cur.filename) fl.removeThumbFails
          else d1)
          (osRemoveQuiet st.disk cur.path fl.removeFileFails)⟩, .success) := by
    unfold fileDeleteHandler
    rw [hlook]
    simp only [hb, ht, hf, hc]
    rfl
  refine ⟨by rw [hrun], by rw [hrun], ?_, ?_, ?_⟩
  · rw [hrun]
    intro f hfm
    simp only [deleteTx, List.mem_filter, Bool.not_eq_true',
      decide_eq_false_iff_not] at hfm
    exact hfm.2
  · rw [hrun]
    intro ft hftm
    simp only [deleteTx, List.mem_filter, Bool.not_eq_true',
      decide_eq_false_iff_not] at hftm
    exact hftm.2
  · intro fl2
    unfold fileDeleteHandler
    rw [hlook]
    by_cases h1 : fl2.beginFails
    · simp [h1]
    · by_cases h2 : fl2.deleteTagsFails
      · simp [h1, h2]
      · by_cases h3 : fl2.deleteFileFails
        · simp [h1, h2, h3]
        · by_cases h4 : fl2.commitFails
          · simp [h1, h2, h3, h4]
          · simp [h1, h2, h3, h4]

/-- A state with one tagged file, for the delete witness. -/
def deleteDemoState : AppState :=
  { catalog := ⟨[⟨1, "a.png", "uploads/a.png", ""⟩, ⟨2, "b.png", "uploads/b.png", ""⟩],
      [⟨1, "colour"⟩], [⟨1, 1, "red"⟩], [⟨1, 1⟩, ⟨2, 1⟩]⟩,
    disk := [("uploads/a.png", 1), ("uploads/b.png", 2)] }

/-- Witness for C3: deleting file 1 while the physical removal fails still
commits the transaction — the row and its association are gone, file 2's
association survives, and the result is success. -/
theorem fileDeleteHandler_atomic_witness :
    (fileDeleteHandler deleteDemoState "uploads" 1
        ⟨false, false, false, false, true, true⟩).2 = .success ∧
    (fileDeleteHandler deleteDemoState "uploads" 1
        ⟨false, false, false, false, true, true⟩).1.catalog =
      deleteTx deleteDemoState.catalog 1 ∧
    deleteTx deleteDemoState.catalog 1 =
      ⟨[⟨2, "b.png", "uploads/b.png", ""⟩], [⟨1, "colour"⟩], [⟨1, 1, "red"⟩],
        [⟨2, 1⟩]⟩ ∧
    diskGet (fileDeleteHandler deleteDemoState "uploads" 1
        ⟨false, false, false, false, true, true⟩).1.disk "uploads/a.png" = some 1 :=
  ⟨(fileDeleteHandler_atomic deleteDemoState "uploads" 1
      ⟨false, false, false, false, true, true⟩ ⟨1, "a.png", "uploads/a.png", ""⟩
      (by rfl) (by rfl) (by rfl) (by rfl) (by rfl)).1,
    (fileDeleteHandler_atomic deleteDemoState "uploads" 1
      ⟨false, false, false, false, true, true⟩ ⟨1, "a.png", "uploads/a.png", ""⟩
      (by rfl) (by rfl) (by rfl) (by rfl) (by rfl)).2.1,
    by rfl, by rfl⟩

/-- A one-file state for the empty-rename evaluation. -/
def renameDemoState : AppState :=
  { catalog := ⟨[⟨1, "photo.png", "uploads/photo.png", ""⟩], [], [], []⟩,
    disk := [("uploads/photo.png", 7)] }

/-- C9 evaluated: `sanitizeFilename` maps the empty (or all-whitespace)
submission to `"file"`, so the handler's `newFilename == ""` rejection is
unreachable — the third conjunct proves no submission ever trips it — and an
empty submission proceeds to rename the file to `"file"` on disk and in the
catalog instead of being rejected before any mutation. -/
theorem fileRenameHandler_empty_name_divergence :
    sanitizeFilename "" = "file" ∧
    submittedName "   " = "file" ∧
    (∀ raw : String, submittedName raw ≠ "") ∧
    (fileRenameHandler renameDemoState "uploads" 1 "" false).2 = .success ∧
    diskGet (fileRenameHandler renameDemoState "uploads" 1 "" false).1.disk
      "uploads/file" = some 7 ∧
    diskGet renameDemoState.disk "uploads/file" = none ∧
    lookupFile (fileRenameHandler renameDemoState "uploads" 1 "" false).1.catalog.files
      1 = some ⟨1, "file", "uploads/file", ""⟩ :=
  ⟨by rfl, by rfl, fun raw => sanitizeFilename_ne_empty _, by rfl, by rfl,
    by rfl, by rfl⟩

/-- C10: every sanitized filename is non-empty and free of `/`, `\` and
`..`; the name the rename handler applies is exactly the sanitized trimmed
submission, and joining it under the upload root yields a path whose
components are the root's components plus that single name — never a parent
or sibling directory. -/
theorem sanitizeFilename_path_safety (s dir : String) :
    sanitizeFilename s ≠ "" ∧
    containsChar '/' (sanitizeFilename s).data = false ∧
    containsChar '\\' (sanitizeFilename s).data = false ∧
    hasDotDot (sanitizeFilename s).data = false ∧
    submittedName s = sanitizeFilename (String.mk (goTrim s.data)) ∧
    splitSlash (joinPath dir (sanitizeFilename s)) =
      splitSlash dir ++ [(sanitizeFilename s).data] :=
  ⟨sanitizeFilename_ne_empty s, sanitizeFilename_no_slash s,
    sanitizeFilename_no_backslash s, sanitizeFilename_no_dotdot s, rfl,
    splitSlash_joinPath dir _ (sanitizeFilename_no_slash s)⟩

end Taggart
